import Mathlib

/-!
Verification of the winget-frontend package-manager output adapter
(`winget_client.py`): the subprocess runner model, the three tabular
output parsers (installed list, search results, upgradable list) and the
facade operations built on them.

The parsers are regex-driven in the source.  The two patterns

  `^(.+?)\s{2,}(.+?)\s{2,}(.+?)(?:\s{2,}(.+?))?(?:\s{2,}(.+?))?$`
  `^(.+?)\s{2,}(.+?)\s{2,}(.+?)\s{2,}(.+?)\s{2,}(.+?)$`

are embedded as explicit backtracking searches with the exact priorities
of the regex engine: lazy `.+?` groups try shorter captures first, greedy
`\s{2,}` separators try longer runs first, optional groups try to match
before being skipped, and the overall result is the first full match in
this depth-first order.  Lines handed to the matchers come from splitting
the output on the newline character, so they never contain `'\n'`; the
`noNl` guards keep the embedding faithful to `.` nonetheless.
-/

namespace Winget

/-- Whitespace as matched by Python's `\s` and stripped by `str.strip()`
(ASCII part; the adapter's inputs are console tables). -/
def pyWs (c : Char) : Bool :=
  c == ' ' || c == '\t' || c == '\n' || c == '\r' || c == '\x0b' || c == '\x0c'

/-- `str.strip()`: drop trailing whitespace, then leading whitespace. -/
def stripChars (l : List Char) : List Char :=
  ((l.reverse.dropWhile pyWs).reverse).dropWhile pyWs

/-- `str.split('\n')`. -/
def splitNl : List Char → List (List Char)
  | [] => [[]]
  | c :: rest =>
    if c = '\n' then [] :: splitNl rest
    else
      match splitNl rest with
      | [] => [[c]]
      | h :: t => (c :: h) :: t

/-- Length of the whitespace run at the head of `l`. -/
def wsRunLen (l : List Char) : Nat := (l.takeWhile pyWs).length

/-- Candidate lengths for a greedy `\s{2,}` anchored at the head of `l`:
the longest possible run first, down to 2. -/
def sepLens (l : List Char) : List Nat := (List.range' 2 (wsRunLen l - 1)).reverse

/-- Candidate lengths for a lazy `.+?` anchored at the head of `l`:
shortest first. -/
def lazyLens (l : List Char) : List Nat := List.range' 1 l.length

/-- `.` cannot match a newline, so a `.+?` capture may not contain one. -/
def noNl (l : List Char) : Bool := !(l.contains '\n')

/-- Second optional group `(?:\s{2,}(.+?))?` then `$`, with the first
optional group already bound to `g4`, anchored at `rb`: the group tries
to match (greedy separator, lazy capture reaching `$`) before being
skipped (which requires `$`, i.e. `rb = []`). -/
def opt2From (g4 rb : List Char) : Option (Option (List Char) × Option (List Char)) :=
  ((sepLens rb).findSome? fun m4 =>
    (lazyLens (rb.drop m4)).findSome? fun n5 =>
      if noNl ((rb.drop m4).take n5) ∧ (rb.drop m4).drop n5 = [] then
        some (some g4, some ((rb.drop m4).take n5))
      else none)
  <|>
  (if rb = [] then some (some g4, none) else none)

/-- First optional group matching `\s{2,}(.+?)`, then the second optional
group and `$`, anchored at `r`. -/
def opt1From (r : List Char) : Option (Option (List Char) × Option (List Char)) :=
  (sepLens r).findSome? fun m3 =>
    (lazyLens (r.drop m3)).findSome? fun n4 =>
      if noNl ((r.drop m3).take n4) then
        opt2From ((r.drop m3).take n4) ((r.drop m3).drop n4)
      else none

/-- First optional group skipped, second tried: `\s{2,}(.+?)` then `$`. -/
def opt1SkipFrom (r : List Char) : Option (Option (List Char) × Option (List Char)) :=
  (sepLens r).findSome? fun m4 =>
    (lazyLens (r.drop m4)).findSome? fun n5 =>
      if noNl ((r.drop m4).take n5) ∧ (r.drop m4).drop n5 = [] then
        some (none, some ((r.drop m4).take n5))
      else none

/-- `(?:\s{2,}(.+?))?(?:\s{2,}(.+?))?$` anchored at `r`, in the regex
engine's backtracking order: the first optional group tries to match
before being skipped, then the second, then `$`. -/
def tailMatch (r : List Char) : Option (Option (List Char) × Option (List Char)) :=
  opt1From r <|> opt1SkipFrom r <|> (if r = [] then some (none, none) else none)

/-- `(.+?)` (third capture) followed by the optional tail, anchored at `r`. -/
def g3Match (r : List Char) : Option (List Char × Option (List Char) × Option (List Char)) :=
  (lazyLens r).findSome? fun n =>
    if noNl (r.take n) then (tailMatch (r.drop n)).map (fun t => (r.take n, t.1, t.2))
    else none

/-- Second `\s{2,}` separator followed by the rest of the flexible pattern. -/
def sep2Match (r : List Char) : Option (List Char × Option (List Char) × Option (List Char)) :=
  (sepLens r).findSome? fun m => g3Match (r.drop m)

/-- `(.+?)` (second capture) followed by the rest of the flexible pattern. -/
def g2Match (r : List Char) :
    Option (List Char × List Char × Option (List Char) × Option (List Char)) :=
  (lazyLens r).findSome? fun n =>
    if noNl (r.take n) then (sep2Match (r.drop n)).map (fun t => (r.take n, t)) else none

/-- First `\s{2,}` separator followed by the rest of the flexible pattern. -/
def sep1Match (r : List Char) :
    Option (List Char × List Char × Option (List Char) × Option (List Char)) :=
  (sepLens r).findSome? fun m => g2Match (r.drop m)

/-- `re.match` of `^(.+?)\s{2,}(.+?)\s{2,}(.+?)(?:\s{2,}(.+?))?(?:\s{2,}(.+?))?$`
on `l`, returning the five captures of the first match in backtracking order. -/
def matchFlex (l : List Char) :
    Option (List Char × List Char × List Char × Option (List Char) × Option (List Char)) :=
  (lazyLens l).findSome? fun n =>
    if noNl (l.take n) then (sep1Match (l.drop n)).map (fun t => (l.take n, t)) else none

/-- `(.+?)$` (fifth capture of the strict pattern) anchored at `r`. -/
def sG5 (r : List Char) : Option (List Char) :=
  (lazyLens r).findSome? fun n =>
    if noNl (r.take n) ∧ r.drop n = [] then some (r.take n) else none

/-- Fourth `\s{2,}` separator of the strict pattern. -/
def sSep4 (r : List Char) : Option (List Char) :=
  (sepLens r).findSome? fun m => sG5 (r.drop m)

/-- `(.+?)` (fourth capture of the strict pattern) and the rest. -/
def sG4 (r : List Char) : Option (List Char × List Char) :=
  (lazyLens r).findSome? fun n =>
    if noNl (r.take n) then (sSep4 (r.drop n)).map (fun g5 => (r.take n, g5)) else none

/-- Third `\s{2,}` separator of the strict pattern. -/
def sSep3 (r : List Char) : Option (List Char × List Char) :=
  (sepLens r).findSome? fun m => sG4 (r.drop m)

/-- `(.+?)` (third capture of the strict pattern) and the rest. -/
def sG3 (r : List Char) : Option (List Char × List Char × List Char) :=
  (lazyLens r).findSome? fun n =>
    if noNl (r.take n) then (sSep3 (r.drop n)).map (fun t => (r.take n, t)) else none

/-- Second `\s{2,}` separator of the strict pattern. -/
def sSep2 (r : List Char) : Option (List Char × List Char × List Char) :=
  (sepLens r).findSome? fun m => sG3 (r.drop m)

/-- `(.+?)` (second capture of the strict pattern) and the rest. -/
def sG2 (r : List Char) : Option (List Char × List Char × List Char × List Char) :=
  (lazyLens r).findSome? fun n =>
    if noNl (r.take n) then (sSep2 (r.drop n)).map (fun t => (r.take n, t)) else none

/-- First `\s{2,}` separator of the strict pattern. -/
def sSep1 (r : List Char) : Option (List Char × List Char × List Char × List Char) :=
  (sepLens r).findSome? fun m => sG2 (r.drop m)

/-- `re.match` of `^(.+?)\s{2,}(.+?)\s{2,}(.+?)\s{2,}(.+?)\s{2,}(.+?)$` on `l`. -/
def matchStrict (l : List Char) :
    Option (List Char × List Char × List Char × List Char × List Char) :=
  (lazyLens l).findSome? fun n =>
    if noNl (l.take n) then (sSep1 (l.drop n)).map (fun t => (l.take n, t)) else none

/-- The `Package` dataclass. -/
structure Package where
  name : String
  id : String
  version : String
  source : String := ""
  available_version : String := ""
deriving DecidableEq, Repr

/-- Python's substring test `pat in l`. -/
def containsSub (l pat : List Char) : Bool :=
  if pat.isPrefixOf l then true
  else
    match l with
    | [] => false
    | _ :: t => containsSub t pat

/-- `str.lower()` (ASCII part, which covers the catalog-name tokens tested). -/
def toLowerList (l : List Char) : List Char := l.map Char.toLower

/-- `line.startswith(c)` for a single character. -/
def startsWithChar (l : List Char) (c : Char) : Bool :=
  match l with
  | [] => false
  | d :: _ => d == c

/-- `match.group(i).strip() if match.group(i) else ""` for an optional capture. -/
def groupStr (o : Option (List Char)) : String :=
  match o with
  | some g => String.mk (stripChars g)
  | none => ""

/-- Heuristic of the single-optional-column branch: the value names a known
catalog (`"winget" in group4.lower()` / `"msstore" in group4.lower()`) or is
shorter than 20 characters. -/
def looksLikeSource (group4 : String) : Prop :=
  containsSub (toLowerList group4.data) "winget".data = true
    ∨ containsSub (toLowerList group4.data) "msstore".data = true
    ∨ group4.length < 20

instance (group4 : String) : Decidable (looksLikeSource group4) := by
  unfold looksLikeSource
  infer_instance

/-- Record construction for the installed-list context
(`_parse_list_output`, disambiguation of the optional trailing columns). -/
def listRecordOfGroups (g1 g2 g3 : List Char) (o4 o5 : Option (List Char)) : Package :=
  if groupStr o5 ≠ "" then
    { name := String.mk (stripChars g1), id := String.mk (stripChars g2),
      version := String.mk (stripChars g3),
      source := groupStr o5, available_version := groupStr o4 }
  else if groupStr o4 ≠ "" ∧ looksLikeSource (groupStr o4) then
    { name := String.mk (stripChars g1), id := String.mk (stripChars g2),
      version := String.mk (stripChars g3),
      source := groupStr o4, available_version := "" }
  else
    { name := String.mk (stripChars g1), id := String.mk (stripChars g2),
      version := String.mk (stripChars g3),
      source := "winget", available_version := groupStr o4 }

/-- Record construction for the search-results context
(`_parse_search_output`; same as the installed-list rule, plus the
non-data-label exclusion on the `available_version` slot). -/
def searchRecordOfGroups (g1 g2 g3 : List Char) (o4 o5 : Option (List Char)) : Package :=
  if groupStr o5 ≠ "" then
    { name := String.mk (stripChars g1), id := String.mk (stripChars g2),
      version := String.mk (stripChars g3),
      source := groupStr o5,
      available_version :=
        if groupStr o4 ≠ "" ∧ groupStr o4 ∉ (["Command:", "Tag:", "Tag"] : List String)
        then groupStr o4 else "" }
  else if groupStr o4 ≠ "" ∧ looksLikeSource (groupStr o4) then
    { name := String.mk (stripChars g1), id := String.mk (stripChars g2),
      version := String.mk (stripChars g3),
      source := groupStr o4, available_version := "" }
  else
    { name := String.mk (stripChars g1), id := String.mk (stripChars g2),
      version := String.mk (stripChars g3),
      source := "winget", available_version := groupStr o4 }

/-- Record construction for the upgradable-list context
(`_parse_upgrade_output`; all five columns required). -/
def upgradeRecordOfGroups (g1 g2 g3 g4 g5 : List Char) : Package :=
  { name := String.mk (stripChars g1)
    id := String.mk (stripChars g2)
    version := String.mk (stripChars g3)
    source := String.mk (stripChars g5)
    available_version := String.mk (stripChars g4) }

/-- One data line of the installed-list context: strip, skip empty /
too-short / spinner-artifact lines, match, build the record. -/
def listLineRecord (line : List Char) : Option Package :=
  if stripChars line = [] then none
  else if (stripChars line).length < 10 ∨ startsWithChar (stripChars line) '-' = true
      ∨ startsWithChar (stripChars line) '\\' = true
      ∨ startsWithChar (stripChars line) '|' = true
      ∨ startsWithChar (stripChars line) '/' = true then none
  else
    match matchFlex (stripChars line) with
    | none => none
    | some (g1, g2, g3, o4, o5) => some (listRecordOfGroups g1 g2 g3 o4 o5)

/-- One data line of the search-results context. -/
def searchLineRecord (line : List Char) : Option Package :=
  if stripChars line = [] then none
  else if (stripChars line).length < 10 ∨ startsWithChar (stripChars line) '-' = true
      ∨ startsWithChar (stripChars line) '\\' = true
      ∨ startsWithChar (stripChars line) '|' = true
      ∨ startsWithChar (stripChars line) '/' = true then none
  else
    match matchFlex (stripChars line) with
    | none => none
    | some (g1, g2, g3, o4, o5) => some (searchRecordOfGroups g1 g2 g3 o4 o5)

/-- One data line of the upgradable-list context. -/
def upgradeLineRecord (line : List Char) : Option Package :=
  if stripChars line = [] then none
  else if (stripChars line).length < 10 ∨ startsWithChar (stripChars line) '-' = true
      ∨ startsWithChar (stripChars line) '\\' = true
      ∨ startsWithChar (stripChars line) '|' = true
      ∨ startsWithChar (stripChars line) '/' = true then none
  else
    match matchStrict (stripChars line) with
    | none => none
    | some (g1, g2, g3, g4, g5) => some (upgradeRecordOfGroups g1 g2 g3 g4 g5)

/-- Loop step of the three parse loops: append the record when the line
yielded one, keep the accumulator otherwise. -/
def appendRecord {β : Type} (o : Option β) (acc : List β) : List β :=
  match o with
  | some p => acc ++ [p]
  | none => acc

/-- Scan for the first line whose stripped form starts with `---` and
return the lines after it, or `none` when no separator line exists. -/
def dropThroughSep : List (List Char) → Option (List (List Char))
  | [] => none
  | l :: rest =>
    if "---".data.isPrefixOf (stripChars l) = true then some rest
    else dropThroughSep rest

/-- `_parse_list_output`. -/
def parseListOutput (output : String) : List Package :=
  match dropThroughSep (splitNl (stripChars output.data)) with
  | none => []
  | some dataLines =>
    dataLines.foldl (fun acc line => appendRecord (listLineRecord line) acc) []

/-- `_parse_search_output`. -/
def parseSearchOutput (output : String) : List Package :=
  match dropThroughSep (splitNl (stripChars output.data)) with
  | none => []
  | some dataLines =>
    dataLines.foldl (fun acc line => appendRecord (searchLineRecord line) acc) []

/-- `_parse_upgrade_output`. -/
def parseUpgradeOutput (output : String) : List Package :=
  match dropThroughSep (splitNl (stripChars output.data)) with
  | none => []
  | some dataLines =>
    dataLines.foldl (fun acc line => appendRecord (upgradeLineRecord line) acc) []

/-- What `subprocess.run` did, as seen by the `try` block of `_run_command`. -/
inductive SubprocessResult where
  | completed (stdout stderr : String) (returncode : Int)
  | timeoutExpired
  | fileNotFoundError
  | permissionError
  | otherException (msg : String)
deriving DecidableEq

/-- `_run_command`'s normalization of the subprocess outcome into a
`(stdout_text, return_code)` pair. -/
def runCommandModel : SubprocessResult → String × Int
  | .completed out err code =>
    if code ≠ 0 ∧ err ≠ "" then (out ++ "\nSTDERR: " ++ err, code) else (out, code)
  | .timeoutExpired => ("Command timed out", 1)
  | .fileNotFoundError =>
    ("winget command not found. Is Windows Package Manager installed?", 1)
  | .permissionError =>
    ("Permission denied. Administrator privileges may be required.", 1)
  | .otherException e => ("Error: " ++ e, 1)

/-- `list_installed`, as a function of the runner's `(stdout, return_code)`. -/
def listInstalledFrom (stdout : String) (returnCode : Int) : List Package × Option String :=
  if returnCode ≠ 0 then
    ([], some (if containsSub stdout.data "Error".data = true
          ∨ containsSub stdout.data "Permission".data = true
        then stdout
        else "Command failed with return code " ++ toString returnCode))
  else (parseListOutput stdout, none)

/-- `search`, as a function of the runner's `(stdout, return_code)`. -/
def searchFrom (stdout : String) (returnCode : Int) : List Package × Option String :=
  if returnCode ≠ 0 then
    ([], some (if containsSub stdout.data "Error".data = true
          ∨ containsSub stdout.data "Permission".data = true
        then stdout
        else "Command failed with return code " ++ toString returnCode))
  else (parseSearchOutput stdout, none)

/-- `check_for_updates`, as a function of the runner's `(stdout, return_code)`. -/
def checkForUpdatesFrom (stdout : String) (returnCode : Int) : List Package × Option String :=
  if returnCode ≠ 0 then
    ([], some (if containsSub stdout.data "Error".data = true
          ∨ containsSub stdout.data "Permission".data = true
        then stdout
        else "Command failed with return code " ++ toString returnCode))
  else (parseUpgradeOutput stdout, none)

/-! ### Helper lemmas: generic list facts -/

theorem findSome?_isSome_of_mem {α β : Type} {f : α → Option β} {l : List α} {a : α}
    (ha : a ∈ l) (hf : (f a).isSome) : (l.findSome? f).isSome := by
  induction l with
  | nil => cases ha
  | cons x xs ih =>
    rw [List.findSome?_cons]
    cases hx : f x with
    | some b => simp
    | none =>
      rcases List.mem_cons.1 ha with rfl | ha'
      · rw [hx] at hf; cases hf
      · exact ih ha'

theorem foldl_opt_append {α β : Type} (f : α → Option β) :
    ∀ (ls : List α) (acc : List β),
      ls.foldl (fun acc line => appendRecord (f line) acc) acc = acc ++ ls.filterMap f
  | [], acc => by simp
  | x :: xs, acc => by
    simp only [List.foldl_cons, List.filterMap_cons]
    cases hx : f x with
    | none => rw [foldl_opt_append f xs (appendRecord none acc)]; simp [appendRecord]
    | some b => rw [foldl_opt_append f xs (appendRecord (some b) acc)]; simp [appendRecord]

theorem drop_length_takeWhile {α : Type} (p : α → Bool) (l : List α) :
    l.drop (l.takeWhile p).length = l.dropWhile p := by
  induction l with
  | nil => rfl
  | cons x xs ih =>
    by_cases hx : p x
    · simp [List.takeWhile_cons_of_pos hx, List.dropWhile_cons_of_pos hx, ih]
    · simp [List.takeWhile_cons_of_neg hx, List.dropWhile_cons_of_neg hx]

theorem dropWhile_head_false {α : Type} {p : α → Bool} {l t : List α} {c : α}
    (h : l.dropWhile p = c :: t) : p c = false := by
  induction l with
  | nil => cases h
  | cons x xs ih =>
    rw [List.dropWhile_cons] at h
    split at h
    · exact ih h
    · cases h; simp_all

theorem suffix_getLast?_eq {α : Type} {s t : List α} (h : s <:+ t) (hs : s ≠ []) :
    t.getLast? = s.getLast? := by
  obtain ⟨u, rfl⟩ := h
  rw [List.getLast?_append]
  cases hl : s.getLast? with
  | none => exact absurd (by simpa using congrArg Option.isSome hl) (by simpa using hs)
  | some a => rfl

theorem mem_of_mem_suffix {α : Type} {s t : List α} {a : α} (ha : a ∈ s) (h : s <:+ t) :
    a ∈ t := h.subset ha

/-! ### Helper lemmas: whitespace, strip, split -/

theorem stripChars_subset (l : List Char) : stripChars l ⊆ l := by
  intro c hc
  unfold stripChars at hc
  have h1 : c ∈ (l.reverse.dropWhile pyWs).reverse := (List.dropWhile_suffix pyWs).subset hc
  have h2 : c ∈ l.reverse.dropWhile pyWs := List.mem_reverse.1 h1
  have h3 : c ∈ l.reverse := (List.dropWhile_suffix pyWs).subset h2
  exact List.mem_reverse.1 h3

theorem stripChars_head_false {l t : List Char} {c : Char}
    (h : stripChars l = c :: t) : pyWs c = false :=
  dropWhile_head_false h

theorem stripChars_getLast?_false {l : List Char} (h : stripChars l ≠ []) :
    ∃ c, (stripChars l).getLast? = some c ∧ pyWs c = false := by
  unfold stripChars at h ⊢
  set X := (l.reverse.dropWhile pyWs).reverse with hX
  have hsuf : X.dropWhile pyWs <:+ X := List.dropWhile_suffix pyWs
  have hXlast : X.getLast? = (X.dropWhile pyWs).getLast? := suffix_getLast?_eq hsuf h
  have hXrev : X.getLast? = (l.reverse.dropWhile pyWs).head? := by
    rw [hX, List.getLast?_reverse]
  cases hhd : (l.reverse.dropWhile pyWs).head? with
  | none =>
    exfalso
    have : l.reverse.dropWhile pyWs = [] := by
      cases hd : l.reverse.dropWhile pyWs with
      | nil => rfl
      | cons a b => rw [hd] at hhd; cases hhd
    rw [hX, this] at h
    simp at h
  | some c =>
    refine ⟨c, ?_, ?_⟩
    · rw [← hXlast, hXrev, hhd]
    · cases hd : l.reverse.dropWhile pyWs with
      | nil => rw [hd] at hhd; cases hhd
      | cons a b =>
        rw [hd] at hhd
        cases hhd
        exact dropWhile_head_false hd

theorem dropWhile_ne_nil_of_mem {p : Char → Bool} {r : List Char} {c : Char}
    (hc : c ∈ r) (hp : p c = false) : r.dropWhile p ≠ [] := by
  intro h
  have := (List.dropWhile_eq_nil_iff).1 h c hc
  rw [hp] at this
  cases this

theorem stripChars_ne_nil_of_mem {g : List Char} {c : Char}
    (hc : c ∈ g) (hp : pyWs c = false) : stripChars g ≠ [] := by
  unfold stripChars
  have hcrev : c ∈ g.reverse := List.mem_reverse.2 hc
  have hcd : c ∈ g.reverse.dropWhile pyWs := by
    have := List.takeWhile_append_dropWhile (p := pyWs) (l := g.reverse)
    rcases List.mem_append.1 (by rw [this]; exact hcrev) with h | h
    · exact absurd (List.mem_takeWhile_imp h) (by simp [hp])
    · exact h
  exact dropWhile_ne_nil_of_mem (List.mem_reverse.2 hcd) hp

theorem mem_splitNl_no_nl {l line : List Char} (h : line ∈ splitNl l) :
    ∀ c ∈ line, c ≠ '\n' := by
  induction l generalizing line with
  | nil =>
    unfold splitNl at h
    rcases List.mem_singleton.1 h with rfl
    intro c hc; cases hc
  | cons x xs ih =>
    unfold splitNl at h
    split at h
    · rcases List.mem_cons.1 h with rfl | h'
      · intro c hc; cases hc
      · exact ih h'
    · rename_i hx
      cases hs : splitNl xs with
      | nil =>
        rw [hs] at h
        rcases List.mem_singleton.1 h with rfl
        intro c hc
        rcases List.mem_singleton.1 hc with rfl
        exact hx
      | cons hd tl =>
        rw [hs] at h
        rcases List.mem_cons.1 h with rfl | h'
        · intro c hc
          rcases List.mem_cons.1 hc with rfl | hc'
          · exact hx
          · exact ih (by rw [hs]; exact List.mem_cons_self hd tl) c hc'
        · intro c hc
          exact ih (by rw [hs]; exact List.mem_cons.2 (Or.inr h')) c hc

theorem contains_false_of_not_mem {l : List Char} {a : Char} (h : a ∉ l) :
    l.contains a = false := by
  simp [List.contains, List.elem_eq_mem, h]

theorem noNl_of_subset {s l : List Char} (hsub : s ⊆ l)
    (h : l.contains '\n' = false) : noNl s = true := by
  unfold noNl
  have hl : '\n' ∉ l := by
    intro hm
    simp [List.contains, List.elem_eq_mem, hm] at h
  simp [List.contains, List.elem_eq_mem]
  exact fun hm => hl (hsub hm)

/-! ### Helper lemmas: candidate-length lists -/

theorem orElse_eq_some {α : Type} {a b : Option α} {v : α} (h : (a <|> b) = some v) :
    a = some v ∨ (a = none ∧ b = some v) := by
  cases a <;> simp_all

theorem mem_lazyLens {l : List Char} {n : Nat} (h : n ∈ lazyLens l) :
    1 ≤ n ∧ n ≤ l.length := by
  unfold lazyLens at h
  have := List.mem_range'_1.1 h
  omega

theorem length_mem_lazyLens {l : List Char} (h : l ≠ []) : l.length ∈ lazyLens l := by
  unfold lazyLens
  rw [List.mem_range'_1]
  have : 0 < l.length := List.length_pos.2 h
  omega

theorem mem_sepLens {l : List Char} {m : Nat} (h : m ∈ sepLens l) :
    2 ≤ m ∧ m ≤ wsRunLen l := by
  unfold sepLens at h
  rw [List.mem_reverse, List.mem_range'_1] at h
  omega

theorem sepLens_eq_nil {l : List Char} (h : wsRunLen l < 2) : sepLens l = [] := by
  unfold sepLens
  have h1 : wsRunLen l - 1 = 0 := by omega
  rw [h1]
  rfl

theorem sepLens_cons {l : List Char} (h : 2 ≤ wsRunLen l) :
    sepLens l = wsRunLen l :: (List.range' 2 (wsRunLen l - 2)).reverse := by
  unfold sepLens
  have h1 : wsRunLen l - 1 = (wsRunLen l - 2) + 1 := by omega
  rw [h1, List.range'_concat, List.reverse_append]
  have h2 : 2 + 1 * (wsRunLen l - 2) = wsRunLen l := by omega
  rw [h2]
  rfl

/-! ### Shape lemmas for the flexible pattern -/

theorem opt2From_g5 {g4 rb : List Char} {o4 : Option (List Char)} {g5 : List Char}
    (h : opt2From g4 rb = some (o4, some g5)) : g5 ≠ [] ∧ g5 <:+ rb := by
  unfold opt2From at h
  rcases orElse_eq_some h with h1 | ⟨-, h1⟩
  · obtain ⟨m4, hm4, hf⟩ := List.exists_of_findSome?_eq_some h1
    obtain ⟨n5, hn5, hg⟩ := List.exists_of_findSome?_eq_some hf
    split at hg
    · rename_i hcond
      obtain ⟨hnl5, hdrop⟩ := hcond
      injection hg with hg'
      injection hg' with ho4 ho5
      injection ho5 with hg5
      have htake : (rb.drop m4).take n5 = rb.drop m4 := by
        have := List.take_append_drop n5 (rb.drop m4)
        rw [hdrop, List.append_nil] at this
        exact this
      have hne : rb.drop m4 ≠ [] := by
        obtain ⟨h1n, h2n⟩ := mem_lazyLens hn5
        intro hnil
        rw [hnil] at h2n
        simp at h2n
        omega
      subst hg5
      rw [htake]
      exact ⟨hne, List.drop_suffix m4 rb⟩
    · cases hg
  · split at h1
    · injection h1 with h1'
      injection h1' with ho4 ho5
      cases ho5
    · cases h1

theorem opt1From_g5 {r : List Char} {o4 : Option (List Char)} {g5 : List Char}
    (h : opt1From r = some (o4, some g5)) : g5 ≠ [] ∧ g5 <:+ r := by
  unfold opt1From at h
  obtain ⟨m3, hm3, hf⟩ := List.exists_of_findSome?_eq_some h
  obtain ⟨n4, hn4, hg⟩ := List.exists_of_findSome?_eq_some hf
  split at hg
  · have := opt2From_g5 hg
    exact ⟨this.1, this.2.trans ((List.drop_suffix n4 _).trans (List.drop_suffix m3 r))⟩
  · cases hg

theorem opt1SkipFrom_g5 {r : List Char} {o4 : Option (List Char)} {g5 : List Char}
    (h : opt1SkipFrom r = some (o4, some g5)) : g5 ≠ [] ∧ g5 <:+ r := by
  unfold opt1SkipFrom at h
  obtain ⟨m4, hm4, hf⟩ := List.exists_of_findSome?_eq_some h
  obtain ⟨n5, hn5, hg⟩ := List.exists_of_findSome?_eq_some hf
  split at hg
  · rename_i hcond
    obtain ⟨hnl5, hdrop⟩ := hcond
    injection hg with hg'
    injection hg' with ho4 ho5
    injection ho5 with hg5
    have htake : (r.drop m4).take n5 = r.drop m4 := by
      have := List.take_append_drop n5 (r.drop m4)
      rw [hdrop, List.append_nil] at this
      exact this
    have hne : r.drop m4 ≠ [] := by
      obtain ⟨h1n, h2n⟩ := mem_lazyLens hn5
      intro hnil
      rw [hnil] at h2n
      simp at h2n
      omega
    subst hg5
    rw [htake]
    exact ⟨hne, List.drop_suffix m4 r⟩
  · cases hg

theorem tailMatch_g5 {r : List Char} {o4 : Option (List Char)} {g5 : List Char}
    (h : tailMatch r = some (o4, some g5)) : g5 ≠ [] ∧ g5 <:+ r := by
  unfold tailMatch at h
  rcases orElse_eq_some h with h1 | ⟨-, h1⟩
  · exact opt1From_g5 h1
  · rcases orElse_eq_some h1 with h2 | ⟨-, h2⟩
    · exact opt1SkipFrom_g5 h2
    · split at h2
      · injection h2 with h2'
        injection h2' with ho4 ho5
        cases ho5
      · cases h2

theorem g3Match_take {r g3 : List Char} {o4 o5 : Option (List Char)}
    (h : g3Match r = some (g3, o4, o5)) : ∃ n, 1 ≤ n ∧ g3 = r.take n := by
  unfold g3Match at h
  obtain ⟨n, hn, hf⟩ := List.exists_of_findSome?_eq_some h
  split at hf
  · rw [Option.map_eq_some'] at hf
    obtain ⟨t, ht, hev⟩ := hf
    injection hev with h1 h2
    exact ⟨n, (mem_lazyLens hn).1, h1.symm⟩
  · cases hf

theorem g3Match_g5 {r g3 : List Char} {o4 : Option (List Char)} {g5 : List Char}
    (h : g3Match r = some (g3, o4, some g5)) : g5 ≠ [] ∧ g5 <:+ r := by
  unfold g3Match at h
  obtain ⟨n, hn, hf⟩ := List.exists_of_findSome?_eq_some h
  split at hf
  · rw [Option.map_eq_some'] at hf
    obtain ⟨t, ht, hev⟩ := hf
    obtain ⟨t1, t2⟩ := t
    injection hev with h1 h2
    injection h2 with h3 h4
    subst h3 h4
    have := tailMatch_g5 ht
    exact ⟨this.1, this.2.trans (List.drop_suffix n r)⟩
  · cases hf

theorem sep2Match_g5 {r g3 : List Char} {o4 : Option (List Char)} {g5 : List Char}
    (h : sep2Match r = some (g3, o4, some g5)) : g5 ≠ [] ∧ g5 <:+ r := by
  unfold sep2Match at h
  obtain ⟨m, hm, hf⟩ := List.exists_of_findSome?_eq_some h
  have := g3Match_g5 hf
  exact ⟨this.1, this.2.trans (List.drop_suffix m r)⟩

theorem g2Match_g5 {r g2 g3 : List Char} {o4 : Option (List Char)} {g5 : List Char}
    (h : g2Match r = some (g2, g3, o4, some g5)) : g5 ≠ [] ∧ g5 <:+ r := by
  unfold g2Match at h
  obtain ⟨n, hn, hf⟩ := List.exists_of_findSome?_eq_some h
  split at hf
  · rw [Option.map_eq_some'] at hf
    obtain ⟨t, ht, hev⟩ := hf
    injection hev with h1 h2
    subst h2
    have := sep2Match_g5 ht
    exact ⟨this.1, this.2.trans (List.drop_suffix n r)⟩
  · cases hf

theorem sep1Match_g5 {r g2 g3 : List Char} {o4 : Option (List Char)} {g5 : List Char}
    (h : sep1Match r = some (g2, g3, o4, some g5)) : g5 ≠ [] ∧ g5 <:+ r := by
  unfold sep1Match at h
  obtain ⟨m, hm, hf⟩ := List.exists_of_findSome?_eq_some h
  have := g2Match_g5 hf
  exact ⟨this.1, this.2.trans (List.drop_suffix m r)⟩

theorem matchFlex_g5 {l g1 g2 g3 : List Char} {o4 : Option (List Char)} {g5 : List Char}
    (h : matchFlex l = some (g1, g2, g3, o4, some g5)) : g5 ≠ [] ∧ g5 <:+ l := by
  unfold matchFlex at h
  obtain ⟨n, hn, hf⟩ := List.exists_of_findSome?_eq_some h
  split at hf
  · rw [Option.map_eq_some'] at hf
    obtain ⟨t, ht, hev⟩ := hf
    injection hev with h1 h2
    subst h2
    have := sep1Match_g5 ht
    exact ⟨this.1, this.2.trans (List.drop_suffix n l)⟩
  · cases hf

theorem matchFlex_g1_take {l g1 g2 g3 : List Char} {o4 o5 : Option (List Char)}
    (h : matchFlex l = some (g1, g2, g3, o4, o5)) : ∃ n, 1 ≤ n ∧ g1 = l.take n := by
  unfold matchFlex at h
  obtain ⟨n, hn, hf⟩ := List.exists_of_findSome?_eq_some h
  split at hf
  · rw [Option.map_eq_some'] at hf
    obtain ⟨t, ht, hev⟩ := hf
    injection hev with h1 h2
    exact ⟨n, (mem_lazyLens hn).1, h1.symm⟩
  · cases hf

theorem matchFlex_sep2 {l g1 g2 g3 : List Char} {o4 o5 : Option (List Char)}
    (h : matchFlex l = some (g1, g2, g3, o4, o5)) :
    ∃ r, r <:+ l ∧ sep2Match r = some (g3, o4, o5) := by
  unfold matchFlex at h
  obtain ⟨n1, hn1, hf⟩ := List.exists_of_findSome?_eq_some h
  split at hf
  · rw [Option.map_eq_some'] at hf
    obtain ⟨t, ht, hev⟩ := hf
    injection hev with h1 h2
    subst h2
    unfold sep1Match at ht
    obtain ⟨m1, hm1, hg⟩ := List.exists_of_findSome?_eq_some ht
    unfold g2Match at hg
    obtain ⟨n2, hn2, hg2⟩ := List.exists_of_findSome?_eq_some hg
    split at hg2
    · rw [Option.map_eq_some'] at hg2
      obtain ⟨t2, ht2, hev2⟩ := hg2
      injection hev2 with h3 h4
      subst h4
      exact ⟨((l.drop n1).drop m1).drop n2,
        ((List.drop_suffix n2 _).trans ((List.drop_suffix m1 _).trans (List.drop_suffix n1 l))),
        ht2⟩
    · cases hg2
  · cases hf

theorem tailMatch_nil : tailMatch [] = some (none, none) := by decide

theorem g3Match_isSome {r : List Char} (hne : r ≠ []) (hnl : noNl r = true) :
    (g3Match r).isSome := by
  unfold g3Match
  apply findSome?_isSome_of_mem (length_mem_lazyLens hne)
  simp only [List.take_length, List.drop_length, hnl, if_true, tailMatch_nil]
  simp

/-- The greedy second separator takes the whole whitespace run before the
third capture, so the third capture starts at a non-whitespace character:
a successful flexible match on a line whose tail contains a
non-whitespace character has a third group with non-whitespace head. -/
theorem sep2Match_g3_head {r g3 : List Char} {o4 o5 : Option (List Char)}
    (hnl : r.contains '\n' = false)
    (hnw : ∃ c ∈ r, pyWs c = false)
    (h : sep2Match r = some (g3, o4, o5)) :
    ∃ c t, g3 = c :: t ∧ pyWs c = false := by
  have hw2 : 2 ≤ wsRunLen r := by
    by_contra hlt
    rw [sep2Match, sepLens_eq_nil (by omega)] at h
    cases h
  have hdrop : r.drop (wsRunLen r) = r.dropWhile pyWs := by
    rw [wsRunLen, drop_length_takeWhile]
  have hne : r.dropWhile pyWs ≠ [] := by
    obtain ⟨c, hc, hpc⟩ := hnw
    exact dropWhile_ne_nil_of_mem hc hpc
  have hnl' : noNl (r.dropWhile pyWs) = true :=
    noNl_of_subset (List.dropWhile_suffix pyWs).subset hnl
  have hsome : (g3Match (r.drop (wsRunLen r))).isSome := by
    rw [hdrop]; exact g3Match_isSome hne hnl'
  rw [sep2Match, sepLens_cons hw2] at h
  have hkey : List.findSome? (fun m => g3Match (List.drop m r))
      (wsRunLen r :: (List.range' 2 (wsRunLen r - 2)).reverse) =
      g3Match (List.drop (wsRunLen r) r) :=
    @List.findSome?_cons_of_isSome _ _ (fun m => g3Match (List.drop m r)) (wsRunLen r) _ hsome
  rw [hkey] at h
  obtain ⟨n, hn1, hg3⟩ := g3Match_take h
  rw [hdrop] at hg3
  cases hd : r.dropWhile pyWs with
  | nil => exact absurd hd hne
  | cons c t' =>
    have hpc : pyWs c = false := dropWhile_head_false hd
    obtain ⟨k, rfl⟩ : ∃ k, n = k + 1 := ⟨n - 1, by omega⟩
    rw [hd] at hg3
    exact ⟨c, t'.take k, by simpa using hg3, hpc⟩

/-! ### Shape lemmas for the strict pattern -/

theorem sG5_suffix {r g5 : List Char} (h : sG5 r = some g5) : g5 ≠ [] ∧ g5 <:+ r := by
  unfold sG5 at h
  obtain ⟨n, hn, hf⟩ := List.exists_of_findSome?_eq_some h
  split at hf
  · rename_i hcond
    obtain ⟨hnl5, hdrop⟩ := hcond
    injection hf with hg5
    have htake : r.take n = r := by
      have := List.take_append_drop n r
      rw [hdrop, List.append_nil] at this
      exact this
    have hne : r ≠ [] := by
      obtain ⟨h1n, h2n⟩ := mem_lazyLens hn
      intro hnil
      rw [hnil] at h2n
      simp at h2n
      omega
    subst hg5
    rw [htake]
    exact ⟨hne, List.suffix_refl r⟩
  · cases hf

theorem sSep4_g5 {r g5 : List Char} (h : sSep4 r = some g5) : g5 ≠ [] ∧ g5 <:+ r := by
  unfold sSep4 at h
  obtain ⟨m, hm, hf⟩ := List.exists_of_findSome?_eq_some h
  have := sG5_suffix hf
  exact ⟨this.1, this.2.trans (List.drop_suffix m r)⟩

theorem sG4_g5 {r g4 g5 : List Char} (h : sG4 r = some (g4, g5)) : g5 ≠ [] ∧ g5 <:+ r := by
  unfold sG4 at h
  obtain ⟨n, hn, hf⟩ := List.exists_of_findSome?_eq_some h
  split at hf
  · rw [Option.map_eq_some'] at hf
    obtain ⟨t, ht, hev⟩ := hf
    injection hev with h1 h2
    subst h2
    have := sSep4_g5 ht
    exact ⟨this.1, this.2.trans (List.drop_suffix n r)⟩
  · cases hf

theorem sSep3_g5 {r g4 g5 : List Char} (h : sSep3 r = some (g4, g5)) :
    g5 ≠ [] ∧ g5 <:+ r := by
  unfold sSep3 at h
  obtain ⟨m, hm, hf⟩ := List.exists_of_findSome?_eq_some h
  have := sG4_g5 hf
  exact ⟨this.1, this.2.trans (List.drop_suffix m r)⟩

theorem sG3_g5 {r g3 g4 g5 : List Char} (h : sG3 r = some (g3, g4, g5)) :
    g5 ≠ [] ∧ g5 <:+ r := by
  unfold sG3 at h
  obtain ⟨n, hn, hf⟩ := List.exists_of_findSome?_eq_some h
  split at hf
  · rw [Option.map_eq_some'] at hf
    obtain ⟨t, ht, hev⟩ := hf
    injection hev with h1 h2
    subst h2
    have := sSep3_g5 ht
    exact ⟨this.1, this.2.trans (List.drop_suffix n r)⟩
  · cases hf

theorem sSep2_g5 {r g3 g4 g5 : List Char} (h : sSep2 r = some (g3, g4, g5)) :
    g5 ≠ [] ∧ g5 <:+ r := by
  unfold sSep2 at h
  obtain ⟨m, hm, hf⟩ := List.exists_of_findSome?_eq_some h
  have := sG3_g5 hf
  exact ⟨this.1, this.2.trans (List.drop_suffix m r)⟩

theorem sG2_g5 {r g2 g3 g4 g5 : List Char} (h : sG2 r = some (g2, g3, g4, g5)) :
    g5 ≠ [] ∧ g5 <:+ r := by
  unfold sG2 at h
  obtain ⟨n, hn, hf⟩ := List.exists_of_findSome?_eq_some h
  split at hf
  · rw [Option.map_eq_some'] at hf
    obtain ⟨t, ht, hev⟩ := hf
    injection hev with h1 h2
    subst h2
    have := sSep2_g5 ht
    exact ⟨this.1, this.2.trans (List.drop_suffix n r)⟩
  · cases hf

theorem sSep1_g5 {r g2 g3 g4 g5 : List Char} (h : sSep1 r = some (g2, g3, g4, g5)) :
    g5 ≠ [] ∧ g5 <:+ r := by
  unfold sSep1 at h
  obtain ⟨m, hm, hf⟩ := List.exists_of_findSome?_eq_some h
  have := sG2_g5 hf
  exact ⟨this.1, this.2.trans (List.drop_suffix m r)⟩

theorem matchStrict_g5 {l g1 g2 g3 g4 g5 : List Char}
    (h : matchStrict l = some (g1, g2, g3, g4, g5)) : g5 ≠ [] ∧ g5 <:+ l := by
  unfold matchStrict at h
  obtain ⟨n, hn, hf⟩ := List.exists_of_findSome?_eq_some h
  split at hf
  · rw [Option.map_eq_some'] at hf
    obtain ⟨t, ht, hev⟩ := hf
    injection hev with h1 h2
    subst h2
    have := sSep1_g5 ht
    exact ⟨this.1, this.2.trans (List.drop_suffix n l)⟩
  · cases hf

theorem matchStrict_g1_take {l g1 g2 g3 g4 g5 : List Char}
    (h : matchStrict l = some (g1, g2, g3, g4, g5)) : ∃ n, 1 ≤ n ∧ g1 = l.take n := by
  unfold matchStrict at h
  obtain ⟨n, hn, hf⟩ := List.exists_of_findSome?_eq_some h
  split at hf
  · rw [Option.map_eq_some'] at hf
    obtain ⟨t, ht, hev⟩ := hf
    injection hev with h1 h2
    exact ⟨n, (mem_lazyLens hn).1, h1.symm⟩
  · cases hf

/-! ### Record- and line-level lemmas -/

theorem mk_ne_empty {l : List Char} (h : l ≠ []) : String.mk l ≠ "" := by
  intro he
  exact h (by simpa using congrArg String.data he)

theorem contains_false_of_noNl {l : List Char} (h : noNl l = true) :
    l.contains '\n' = false := by
  unfold noNl at h
  simpa using h

theorem strip_take_ne_nil {line : List Char} {n : Nat}
    (hne : stripChars line ≠ []) (hn : 1 ≤ n) :
    stripChars ((stripChars line).take n) ≠ [] := by
  cases hd : stripChars line with
  | nil => exact absurd hd hne
  | cons c t =>
    have hpc : pyWs c = false := stripChars_head_false hd
    obtain ⟨k, rfl⟩ : ∃ k, n = k + 1 := ⟨n - 1, by omega⟩
    exact stripChars_ne_nil_of_mem (by simp) hpc

theorem strip_suffix_end_ne_nil {line g : List Char}
    (hne : stripChars line ≠ []) (hg : g ≠ []) (hsuf : g <:+ stripChars line) :
    stripChars g ≠ [] := by
  obtain ⟨c, hlast, hpc⟩ := stripChars_getLast?_false hne
  have := suffix_getLast?_eq hsuf hg
  rw [this] at hlast
  exact stripChars_ne_nil_of_mem (List.mem_of_getLast?_eq_some hlast) hpc

theorem listRecordOfGroups_source_ne (g1 g2 g3 : List Char) (o4 o5 : Option (List Char)) :
    (listRecordOfGroups g1 g2 g3 o4 o5).source ≠ "" := by
  unfold listRecordOfGroups
  split
  · rename_i hne; simpa using hne
  · split
    · rename_i hcond; simpa using hcond.1
    · simp

theorem searchRecordOfGroups_source_ne (g1 g2 g3 : List Char) (o4 o5 : Option (List Char)) :
    (searchRecordOfGroups g1 g2 g3 o4 o5).source ≠ "" := by
  unfold searchRecordOfGroups
  split
  · rename_i hne; simpa using hne
  · split
    · rename_i hcond; simpa using hcond.1
    · simp

theorem listRecordOfGroups_name (g1 g2 g3 : List Char) (o4 o5 : Option (List Char)) :
    (listRecordOfGroups g1 g2 g3 o4 o5).name = String.mk (stripChars g1) := by
  unfold listRecordOfGroups
  split
  · rfl
  · split <;> rfl

theorem searchRecordOfGroups_name (g1 g2 g3 : List Char) (o4 o5 : Option (List Char)) :
    (searchRecordOfGroups g1 g2 g3 o4 o5).name = String.mk (stripChars g1) := by
  unfold searchRecordOfGroups
  split
  · rfl
  · split <;> rfl

theorem listRecordOfGroups_version (g1 g2 g3 : List Char) (o4 o5 : Option (List Char)) :
    (listRecordOfGroups g1 g2 g3 o4 o5).version = String.mk (stripChars g3) := by
  unfold listRecordOfGroups
  split
  · rfl
  · split <;> rfl

theorem searchRecordOfGroups_version (g1 g2 g3 : List Char) (o4 o5 : Option (List Char)) :
    (searchRecordOfGroups g1 g2 g3 o4 o5).version = String.mk (stripChars g3) := by
  unfold searchRecordOfGroups
  split
  · rfl
  · split <;> rfl

theorem listLineRecord_name_ne {line : List Char} {p : Package}
    (h : listLineRecord line = some p) : p.name ≠ "" := by
  unfold listLineRecord at h
  split at h
  · cases h
  · split at h
    · cases h
    · rename_i hnil hcond
      split at h
      · cases h
      · rename_i g1 g2 g3 o4 o5 hm
        injection h with h'
        subst h'
        rw [listRecordOfGroups_name]
        obtain ⟨n, hn, hg1⟩ := matchFlex_g1_take hm
        rw [hg1]
        exact mk_ne_empty (strip_take_ne_nil hnil hn)

theorem searchLineRecord_name_ne {line : List Char} {p : Package}
    (h : searchLineRecord line = some p) : p.name ≠ "" := by
  unfold searchLineRecord at h
  split at h
  · cases h
  · split at h
    · cases h
    · rename_i hnil hcond
      split at h
      · cases h
      · rename_i g1 g2 g3 o4 o5 hm
        injection h with h'
        subst h'
        rw [searchRecordOfGroups_name]
        obtain ⟨n, hn, hg1⟩ := matchFlex_g1_take hm
        rw [hg1]
        exact mk_ne_empty (strip_take_ne_nil hnil hn)

theorem upgradeLineRecord_name_ne {line : List Char} {p : Package}
    (h : upgradeLineRecord line = some p) : p.name ≠ "" := by
  unfold upgradeLineRecord at h
  split at h
  · cases h
  · split at h
    · cases h
    · rename_i hnil hcond
      split at h
      · cases h
      · rename_i g1 g2 g3 g4 g5 hm
        injection h with h'
        subst h'
        obtain ⟨n, hn, hg1⟩ := matchStrict_g1_take hm
        unfold upgradeRecordOfGroups
        rw [hg1]
        exact mk_ne_empty (strip_take_ne_nil hnil hn)

theorem listLineRecord_source_ne {line : List Char} {p : Package}
    (h : listLineRecord line = some p) : p.source ≠ "" := by
  unfold listLineRecord at h
  split at h
  · cases h
  · split at h
    · cases h
    · split at h
      · cases h
      · rename_i g1 g2 g3 o4 o5 hm
        injection h with h'
        subst h'
        exact listRecordOfGroups_source_ne g1 g2 g3 o4 o5

theorem searchLineRecord_source_ne {line : List Char} {p : Package}
    (h : searchLineRecord line = some p) : p.source ≠ "" := by
  unfold searchLineRecord at h
  split at h
  · cases h
  · split at h
    · cases h
    · split at h
      · cases h
      · rename_i g1 g2 g3 o4 o5 hm
        injection h with h'
        subst h'
        exact searchRecordOfGroups_source_ne g1 g2 g3 o4 o5

theorem upgradeLineRecord_source_ne {line : List Char} {p : Package}
    (h : upgradeLineRecord line = some p) : p.source ≠ "" := by
  unfold upgradeLineRecord at h
  split at h
  · cases h
  · split at h
    · cases h
    · rename_i hnil hcond
      split at h
      · cases h
      · rename_i g1 g2 g3 g4 g5 hm
        injection h with h'
        subst h'
        obtain ⟨hg5ne, hg5suf⟩ := matchStrict_g5 hm
        unfold upgradeRecordOfGroups
        exact mk_ne_empty (strip_suffix_end_ne_nil hnil hg5ne hg5suf)

theorem listLineRecord_version_ne {line : List Char} {p : Package}
    (hnl : line.contains '\n' = false)
    (h : listLineRecord line = some p) : p.version ≠ "" := by
  unfold listLineRecord at h
  split at h
  · cases h
  · split at h
    · cases h
    · rename_i hnil hcond
      split at h
      · cases h
      · rename_i g1 g2 g3 o4 o5 hm
        injection h with h'
        subst h'
        rw [listRecordOfGroups_version]
        obtain ⟨r, hsuf, hsep2⟩ := matchFlex_sep2 hm
        have hrne : r ≠ [] := by
          intro hnil'
          subst hnil'
          cases hsep2
        have hnlr : r.contains '\n' = false := by
          apply contains_false_of_noNl
          apply noNl_of_subset (hsuf.subset.trans (stripChars_subset line)) hnl
        have hnw : ∃ c ∈ r, pyWs c = false := by
          obtain ⟨c, hlast, hpc⟩ := stripChars_getLast?_false hnil
          have := suffix_getLast?_eq hsuf hrne
          rw [this] at hlast
          exact ⟨c, List.mem_of_getLast?_eq_some hlast, hpc⟩
        obtain ⟨c, t, hg3, hpc⟩ := sep2Match_g3_head hnlr hnw hsep2
        rw [hg3]
        exact mk_ne_empty (stripChars_ne_nil_of_mem (by simp) hpc)

theorem searchLineRecord_version_ne {line : List Char} {p : Package}
    (hnl : line.contains '\n' = false)
    (h : searchLineRecord line = some p) : p.version ≠ "" := by
  unfold searchLineRecord at h
  split at h
  · cases h
  · split at h
    · cases h
    · rename_i hnil hcond
      split at h
      · cases h
      · rename_i g1 g2 g3 o4 o5 hm
        injection h with h'
        subst h'
        rw [searchRecordOfGroups_version]
        obtain ⟨r, hsuf, hsep2⟩ := matchFlex_sep2 hm
        have hrne : r ≠ [] := by
          intro hnil'
          subst hnil'
          cases hsep2
        have hnlr : r.contains '\n' = false := by
          apply contains_false_of_noNl
          apply noNl_of_subset (hsuf.subset.trans (stripChars_subset line)) hnl
        have hnw : ∃ c ∈ r, pyWs c = false := by
          obtain ⟨c, hlast, hpc⟩ := stripChars_getLast?_false hnil
          have := suffix_getLast?_eq hsuf hrne
          rw [this] at hlast
          exact ⟨c, List.mem_of_getLast?_eq_some hlast, hpc⟩
        obtain ⟨c, t, hg3, hpc⟩ := sep2Match_g3_head hnlr hnw hsep2
        rw [hg3]
        exact mk_ne_empty (stripChars_ne_nil_of_mem (by simp) hpc)

/-! ### Parse-level lemmas -/

theorem dropThroughSep_subset {ls dl : List (List Char)}
    (h : dropThroughSep ls = some dl) : ∀ x ∈ dl, x ∈ ls := by
  induction ls with
  | nil => cases h
  | cons l rest ih =>
    unfold dropThroughSep at h
    split at h
    · injection h with h'
      subst h'
      exact fun x hx => List.mem_cons.2 (Or.inr hx)
    · exact fun x hx => List.mem_cons.2 (Or.inr (ih h x hx))

theorem dropThroughSep_eq_none {ls : List (List Char)}
    (h : ∀ line ∈ ls, "---".data.isPrefixOf (stripChars line) = false) :
    dropThroughSep ls = none := by
  induction ls with
  | nil => rfl
  | cons l rest ih =>
    unfold dropThroughSep
    rw [if_neg]
    · exact ih fun line hl => h line (List.mem_cons.2 (Or.inr hl))
    · simp [h l (List.mem_cons_self l rest)]

theorem parseListOutput_eq_filterMap {output : String} {dl : List (List Char)}
    (h : dropThroughSep (splitNl (stripChars output.data)) = some dl) :
    parseListOutput output = dl.filterMap listLineRecord := by
  unfold parseListOutput
  rw [h]
  simpa using foldl_opt_append listLineRecord dl []

theorem parseSearchOutput_eq_filterMap {output : String} {dl : List (List Char)}
    (h : dropThroughSep (splitNl (stripChars output.data)) = some dl) :
    parseSearchOutput output = dl.filterMap searchLineRecord := by
  unfold parseSearchOutput
  rw [h]
  simpa using foldl_opt_append searchLineRecord dl []

theorem parseUpgradeOutput_eq_filterMap {output : String} {dl : List (List Char)}
    (h : dropThroughSep (splitNl (stripChars output.data)) = some dl) :
    parseUpgradeOutput output = dl.filterMap upgradeLineRecord := by
  unfold parseUpgradeOutput
  rw [h]
  simpa using foldl_opt_append upgradeLineRecord dl []

theorem mem_parseListOutput {output : String} {p : Package}
    (hp : p ∈ parseListOutput output) :
    ∃ line ∈ splitNl (stripChars output.data), listLineRecord line = some p := by
  unfold parseListOutput at hp
  split at hp
  · simp at hp
  · rename_i dl hd
    rw [foldl_opt_append listLineRecord dl []] at hp
    simp only [List.nil_append, List.mem_filterMap] at hp
    obtain ⟨line, hl, hrec⟩ := hp
    exact ⟨line, dropThroughSep_subset hd line hl, hrec⟩

theorem mem_parseSearchOutput {output : String} {p : Package}
    (hp : p ∈ parseSearchOutput output) :
    ∃ line ∈ splitNl (stripChars output.data), searchLineRecord line = some p := by
  unfold parseSearchOutput at hp
  split at hp
  · simp at hp
  · rename_i dl hd
    rw [foldl_opt_append searchLineRecord dl []] at hp
    simp only [List.nil_append, List.mem_filterMap] at hp
    obtain ⟨line, hl, hrec⟩ := hp
    exact ⟨line, dropThroughSep_subset hd line hl, hrec⟩

theorem mem_parseUpgradeOutput {output : String} {p : Package}
    (hp : p ∈ parseUpgradeOutput output) :
    ∃ line ∈ splitNl (stripChars output.data), upgradeLineRecord line = some p := by
  unfold parseUpgradeOutput at hp
  split at hp
  · simp at hp
  · rename_i dl hd
    rw [foldl_opt_append upgradeLineRecord dl []] at hp
    simp only [List.nil_append, List.mem_filterMap] at hp
    obtain ⟨line, hl, hrec⟩ := hp
    exact ⟨line, dropThroughSep_subset hd line hl, hrec⟩

/-- In the search-results record builder, a sole optional value equal to a
known non-data label lands in the short-string source branch, leaving
`available_version` empty. -/
theorem searchRecordOfGroups_label_avail {g1 g2 g3 g4 : List Char}
    (hlab : String.mk (stripChars g4) = "Command:" ∨ String.mk (stripChars g4) = "Tag:"
      ∨ String.mk (stripChars g4) = "Tag") :
    (searchRecordOfGroups g1 g2 g3 (some g4) none).available_version = "" := by
  have hg : groupStr (some g4) = String.mk (stripChars g4) := rfl
  have hn : groupStr (none : Option (List Char)) = "" := rfl
  unfold searchRecordOfGroups
  rcases hlab with h | h | h <;>
    rw [hg, hn, h, if_neg (by decide), if_pos (by decide)]

/-! ### Claim theorems -/

/-- Claim C1: in the installed-list context, the single data line
`"7-Zip 22.01  7zip.7zip  22.01  winget"` parses to exactly one record
with name `"7-Zip 22.01"`, id `"7zip.7zip"`, version `"22.01"`, source
`"winget"` and empty available version. -/
theorem claim1_installed_line :
    parseListOutput "---\n7-Zip 22.01  7zip.7zip  22.01  winget" =
      [{ name := "7-Zip 22.01", id := "7zip.7zip", version := "22.01",
         source := "winget", available_version := "" }] := by
  decide

/-- Claim C2: in the search-results parser, when a matched data line has
exactly one optional trailing value present (fourth capture present,
fifth absent) and that value equals `"Command:"`, `"Tag:"` or `"Tag"`,
the emitted record has an empty available version. -/
theorem claim2_search_label_not_data (line : List Char) (p : Package)
    (g1 g2 g3 g4 : List Char)
    (hm : matchFlex (stripChars line) = some (g1, g2, g3, some g4, none))
    (hlab : String.mk (stripChars g4) = "Command:" ∨ String.mk (stripChars g4) = "Tag:"
      ∨ String.mk (stripChars g4) = "Tag")
    (hp : searchLineRecord line = some p) :
    p.available_version = "" := by
  unfold searchLineRecord at hp
  split at hp
  · cases hp
  · split at hp
    · cases hp
    · split at hp
      · cases hp
      · rename_i g1' g2' g3' o4' o5' hm'
        have heq := hm'.symm.trans hm
        simp only [Option.some.injEq, Prod.mk.injEq] at heq
        obtain ⟨h1, h2, h3, h4, h5⟩ := heq
        subst h4 h5
        injection hp with hp'
        subst hp'
        exact searchRecordOfGroups_label_avail hlab

/-- Witness for C2: a concrete search line whose sole optional value is
the label `"Command:"` yields a record with empty available version. -/
theorem claim2_witness :
    searchLineRecord "Vim  vim.vim  9.0  Command:".data =
      some { name := "Vim", id := "vim.vim", version := "9.0",
             source := "Command:", available_version := "" }
    ∧ ({ name := "Vim", id := "vim.vim", version := "9.0",
         source := "Command:", available_version := "" } : Package).available_version = "" := by
  refine ⟨by decide, ?_⟩
  exact claim2_search_label_not_data "Vim  vim.vim  9.0  Command:".data
    { name := "Vim", id := "vim.vim", version := "9.0",
      source := "Command:", available_version := "" }
    "Vim".data "vim.vim".data "9.0".data "Command:".data
    (by rfl) (Or.inl (by decide)) (by rfl)

/-- Counterexample to C3 as stated: the runner does not return distinct
outcome values for its failure modes — a timeout and a manager run that
printed `"Command timed out"` and exited 1 produce the identical
`(text, status)` pair, so the caller cannot distinguish them. -/
theorem claim3_counterexample :
    runCommandModel SubprocessResult.timeoutExpired =
      runCommandModel (SubprocessResult.completed "Command timed out" "" 1)
    ∧ SubprocessResult.timeoutExpired ≠
        SubprocessResult.completed "Command timed out" "" 1 := by
  constructor
  · decide
  · intro h
    cases h

/-- Claim C3 as amended: the runner collapses every failure mode into a
`(message, status)` pair — timeout, missing executable and permission
denial each yield a fixed message with status 1, while a non-zero manager
exit yields the manager's own output and exit code (with a delimited
stderr section when stderr is non-empty). -/
theorem claim3_amended :
    runCommandModel SubprocessResult.timeoutExpired = ("Command timed out", 1)
    ∧ runCommandModel SubprocessResult.fileNotFoundError =
        ("winget command not found. Is Windows Package Manager installed?", 1)
    ∧ runCommandModel SubprocessResult.permissionError =
        ("Permission denied. Administrator privileges may be required.", 1)
    ∧ (∀ out : String, ∀ code : Int, code ≠ 0 →
        runCommandModel (SubprocessResult.completed out "" code) = (out, code))
    ∧ (∀ out err : String, ∀ code : Int, code ≠ 0 → err ≠ "" →
        runCommandModel (SubprocessResult.completed out err code) =
          (out ++ "\nSTDERR: " ++ err, code))
    ∧ (∀ out err : String,
        runCommandModel (SubprocessResult.completed out err 0) = (out, 0)) := by
  refine ⟨by decide, by decide, by decide, ?_, ?_, ?_⟩
  · intro out code hc
    simp only [runCommandModel]
    rw [if_neg (by simp)]
  · intro out err code hc he
    simp only [runCommandModel]
    rw [if_pos ⟨hc, he⟩]
  · intro out err
    simp only [runCommandModel]
    rw [if_neg (by simp)]

/-- Witness for the amended C3: concrete completed runs evaluate as the
amended claim states. -/
theorem claim3_witness :
    runCommandModel (SubprocessResult.completed "boom" "" 2) = ("boom", 2)
    ∧ runCommandModel (SubprocessResult.completed "out" "err" 3) =
        ("out" ++ "\nSTDERR: " ++ "err", 3)
    ∧ runCommandModel (SubprocessResult.completed "fine" "e" 0) = ("fine", 0) :=
  ⟨claim3_amended.2.2.2.1 "boom" 2 (by decide),
   claim3_amended.2.2.2.2.1 "out" "err" 3 (by decide) (by decide),
   claim3_amended.2.2.2.2.2 "fine" "e"⟩

/-- Counterexample to C4 as stated: the parsers can emit partial records.
The 10-character line `"Ab      Cd"` (six spaces inside) matches the
flexible pattern with second capture `" "`, so the installed-list and
search parsers emit a record with empty id; the line
`"Ab  Cd       Ef  Gh"` matches the strict pattern with third capture
`" "`, so the upgradable-list parser emits a record with empty version. -/
theorem claim4_counterexample :
    parseListOutput "---\nAb      Cd" =
      [{ name := "Ab", id := "", version := "Cd",
         source := "winget", available_version := "" }]
    ∧ parseSearchOutput "---\nAb      Cd" =
      [{ name := "Ab", id := "", version := "Cd",
         source := "winget", available_version := "" }]
    ∧ parseUpgradeOutput "---\nAb  Cd       Ef  Gh" =
      [{ name := "Ab", id := "Cd", version := "",
         source := "Gh", available_version := "Ef" }] := by
  refine ⟨by decide, by decide, by decide⟩

/-- Claim C4 as amended: every record emitted by any of the three parsers
has a non-empty name, and records emitted by the installed-list and
search parsers also have a non-empty version; the id (all parsers) and
the version (upgradable-list parser) can be empty, i.e. partial records
are emitted rather than dropped. -/
theorem claim4_amended : ∀ (output : String) (p : Package),
    (p ∈ parseListOutput output → p.name ≠ "" ∧ p.version ≠ "")
    ∧ (p ∈ parseSearchOutput output → p.name ≠ "" ∧ p.version ≠ "")
    ∧ (p ∈ parseUpgradeOutput output → p.name ≠ "") := by
  intro output p
  refine ⟨fun hp => ?_, fun hp => ?_, fun hp => ?_⟩
  · obtain ⟨line, hl, hrec⟩ := mem_parseListOutput hp
    have hnl : line.contains '\n' = false :=
      contains_false_of_not_mem (fun hm => mem_splitNl_no_nl hl '\n' hm rfl)
    exact ⟨listLineRecord_name_ne hrec, listLineRecord_version_ne hnl hrec⟩
  · obtain ⟨line, hl, hrec⟩ := mem_parseSearchOutput hp
    have hnl : line.contains '\n' = false :=
      contains_false_of_not_mem (fun hm => mem_splitNl_no_nl hl '\n' hm rfl)
    exact ⟨searchLineRecord_name_ne hrec, searchLineRecord_version_ne hnl hrec⟩
  · obtain ⟨line, hl, hrec⟩ := mem_parseUpgradeOutput hp
    exact upgradeLineRecord_name_ne hrec

/-- Witness for the amended C4: the concrete record parsed in the C1
scenario has non-empty name and version. -/
theorem claim4_witness :
    ({ name := "7-Zip 22.01", id := "7zip.7zip", version := "22.01",
       source := "winget", available_version := "" } : Package).name ≠ ""
    ∧ ({ name := "7-Zip 22.01", id := "7zip.7zip", version := "22.01",
         source := "winget", available_version := "" } : Package).version ≠ "" :=
  (claim4_amended "---\n7-Zip 22.01  7zip.7zip  22.01  winget"
    { name := "7-Zip 22.01", id := "7zip.7zip", version := "22.01",
      source := "winget", available_version := "" }).1 (by decide)

/-- Claim C5: the strict 5-column line
`"Git  Git.Git  2.40.0  2.42.0  winget"` parses to the expected record,
and any data line that does not match the 5-group pattern yields no
record at all. -/
theorem claim5_upgrade_strict :
    parseUpgradeOutput "---\nGit  Git.Git  2.40.0  2.42.0  winget" =
      [{ name := "Git", id := "Git.Git", version := "2.40.0",
         source := "winget", available_version := "2.42.0" }]
    ∧ ∀ line : List Char, matchStrict (stripChars line) = none →
        upgradeLineRecord line = none := by
  constructor
  · decide
  · intro line h
    unfold upgradeLineRecord
    split
    · rfl
    · split
      · rfl
      · rw [h]

/-- Witness for C5: a four-column line does not match the strict pattern
and is dropped. -/
theorem claim5_witness :
    upgradeLineRecord "Git  Git.Git  2.40.0  winget".data = none :=
  claim5_upgrade_strict.2 "Git  Git.Git  2.40.0  winget".data (by decide)

/-- Claim C6: an input with no line whose stripped form starts with
`---` makes all three parsers return the empty record sequence (they are
total functions, so no error is signalled). -/
theorem claim6_no_separator : ∀ output : String,
    (∀ line ∈ splitNl (stripChars output.data),
      "---".data.isPrefixOf (stripChars line) = false) →
    parseListOutput output = [] ∧ parseSearchOutput output = []
      ∧ parseUpgradeOutput output = [] := by
  intro output h
  have hnone := dropThroughSep_eq_none h
  refine ⟨?_, ?_, ?_⟩
  · unfold parseListOutput
    rw [hnone]
  · unfold parseSearchOutput
    rw [hnone]
  · unfold parseUpgradeOutput
    rw [hnone]

/-- Witness for C6: a separator-free output parses to no records. -/
theorem claim6_witness :
    parseListOutput "No installed packages found." = []
    ∧ parseSearchOutput "No installed packages found." = []
    ∧ parseUpgradeOutput "No installed packages found." = [] :=
  claim6_no_separator "No installed packages found." (by decide)

/-- Claim C7: for each fetch operation, the error component is some iff
the exit status is non-zero; on non-zero exit the records are empty and
the error is the captured output when it contains an error or permission
marker, else the generic failure message; on zero exit the error is none
even when zero records parse. -/
theorem claim7_facade_errors : ∀ (stdout : String) (code : Int),
    (((listInstalledFrom stdout code).2 ≠ none ↔ code ≠ 0)
      ∧ ((searchFrom stdout code).2 ≠ none ↔ code ≠ 0)
      ∧ ((checkForUpdatesFrom stdout code).2 ≠ none ↔ code ≠ 0))
    ∧ (code ≠ 0 →
        listInstalledFrom stdout code = ([], some (
            if containsSub stdout.data "Error".data = true
              ∨ containsSub stdout.data "Permission".data = true
            then stdout else "Command failed with return code " ++ toString code))
        ∧ searchFrom stdout code = ([], some (
            if containsSub stdout.data "Error".data = true
              ∨ containsSub stdout.data "Permission".data = true
            then stdout else "Command failed with return code " ++ toString code))
        ∧ checkForUpdatesFrom stdout code = ([], some (
            if containsSub stdout.data "Error".data = true
              ∨ containsSub stdout.data "Permission".data = true
            then stdout else "Command failed with return code " ++ toString code)))
    ∧ (code = 0 → (listInstalledFrom stdout code).2 = none
        ∧ (searchFrom stdout code).2 = none
        ∧ (checkForUpdatesFrom stdout code).2 = none) := by
  intro stdout code
  by_cases hc : code = 0
  · subst hc
    unfold listInstalledFrom searchFrom checkForUpdatesFrom
    simp
  · unfold listInstalledFrom searchFrom checkForUpdatesFrom
    rw [if_pos hc, if_pos hc, if_pos hc]
    simp [hc]

/-- Witness for C7: concrete failing and succeeding runs. -/
theorem claim7_witness :
    listInstalledFrom "boom" 2 = ([], some (
        if containsSub "boom".data "Error".data = true
          ∨ containsSub "boom".data "Permission".data = true
        then "boom" else "Command failed with return code " ++ toString (2 : Int)))
    ∧ (listInstalledFrom "zero rows" 0).2 = none :=
  ⟨((claim7_facade_errors "boom" 2).2.1 (by decide)).1,
   ((claim7_facade_errors "zero rows" 0).2.2 rfl).1⟩

/-- Claim C8: when a header separator line exists, each parser emits
exactly one record per matching data line, in the original top-to-bottom
order (the output is the `filterMap` of the per-line parse over the data
lines). -/
theorem claim8_order : ∀ (output : String) (dl : List (List Char)),
    dropThroughSep (splitNl (stripChars output.data)) = some dl →
    parseListOutput output = dl.filterMap listLineRecord
      ∧ parseSearchOutput output = dl.filterMap searchLineRecord
      ∧ parseUpgradeOutput output = dl.filterMap upgradeLineRecord :=
  fun _ _ h => ⟨parseListOutput_eq_filterMap h, parseSearchOutput_eq_filterMap h,
    parseUpgradeOutput_eq_filterMap h⟩

/-- Witness for C8 at a concrete two-line input. -/
theorem claim8_witness :
    parseListOutput "---\nAb      Cd" = ["Ab      Cd".data].filterMap listLineRecord
    ∧ parseSearchOutput "---\nAb      Cd" = ["Ab      Cd".data].filterMap searchLineRecord
    ∧ parseUpgradeOutput "---\nAb      Cd" = ["Ab      Cd".data].filterMap upgradeLineRecord :=
  claim8_order "---\nAb      Cd" ["Ab      Cd".data] (by decide)

/-- Claim C9: a data line whose stripped form is shorter than 10
characters or starts with `-`, `\`, `|` or `/` contributes no record in
any of the three parsing contexts. -/
theorem claim9_spinner_lines : ∀ line : List Char,
    ((stripChars line).length < 10
      ∨ startsWithChar (stripChars line) '-' = true
      ∨ startsWithChar (stripChars line) '\\' = true
      ∨ startsWithChar (stripChars line) '|' = true
      ∨ startsWithChar (stripChars line) '/' = true) →
    listLineRecord line = none ∧ searchLineRecord line = none
      ∧ upgradeLineRecord line = none := by
  intro line h
  refine ⟨?_, ?_, ?_⟩
  · unfold listLineRecord
    split <;> rfl
  · unfold searchLineRecord
    split <;> rfl
  · unfold upgradeLineRecord
    split <;> rfl

/-- Witness for C9: a spinner-artifact line is excluded everywhere. -/
theorem claim9_witness :
    listLineRecord "- short".data = none ∧ searchLineRecord "- short".data = none
      ∧ upgradeLineRecord "- short".data = none :=
  claim9_spinner_lines "- short".data (Or.inl (by decide))

/-- Claim C10: every record produced by any of the three parsers has a
non-empty source: the last capture, the short/known single optional
capture, or the literal `"winget"` fallback. -/
theorem claim10_source_nonempty : ∀ (output : String) (p : Package),
    (p ∈ parseListOutput output ∨ p ∈ parseSearchOutput output
      ∨ p ∈ parseUpgradeOutput output) →
    p.source ≠ "" := by
  intro output p hp
  rcases hp with hp | hp | hp
  · obtain ⟨line, hl, hrec⟩ := mem_parseListOutput hp
    exact listLineRecord_source_ne hrec
  · obtain ⟨line, hl, hrec⟩ := mem_parseSearchOutput hp
    exact searchLineRecord_source_ne hrec
  · obtain ⟨line, hl, hrec⟩ := mem_parseUpgradeOutput hp
    exact upgradeLineRecord_source_ne hrec

/-- Witness for C10: the record of the C4 counterexample line still has
the `"winget"` fallback source. -/
theorem claim10_witness :
    ({ name := "Ab", id := "", version := "Cd",
       source := "winget", available_version := "" } : Package).source ≠ "" :=
  claim10_source_nonempty "---\nAb      Cd"
    { name := "Ab", id := "", version := "Cd",
      source := "winget", available_version := "" }
    (Or.inl (by decide))

end Winget
